import Mathlib

/-!
Shallow embedding of the vocal-bridge MCP server (`src/index.js`):
the SQLite-backed entity-relation memory store, the session-multiplexed
HTTP endpoints (`POST /mcp`, `DELETE /mcp`), the tool-call dispatch switch,
and the workspace filesystem helpers guarded by `resolvePath`.
JavaScript strings are modelled by Lean `String`; SQL `CURRENT_TIMESTAMP`
text (whose lexicographic order is chronological) by `Nat` timestamps
supplied to each operation.
-/

/-- Metadata key-value mapping (the spec's "key-value mapping") with string
values, serialized into the TEXT `metadata` column by `JSON.stringify` and
read back with `JSON.parse`. -/
abbrev Metadata := List (String × String)

/-- The double-quote character. -/
def qchar : Char := Char.ofNat 34

/-- The backslash character. -/
def bslash : Char := Char.ofNat 92

/-- The opening curly brace. -/
def lbrace : Char := Char.ofNat 123

/-- The closing curly brace. -/
def rbrace : Char := Char.ofNat 125

/-- JSON escaping of a single character: `JSON.stringify` escapes the quote
and the backslash occurring in metadata keys/values; other characters of the
fragment we model pass through unchanged. -/
def escChar (c : Char) : List Char :=
  if c = qchar ∨ c = bslash then [bslash, c] else [c]

/-- JSON escaping of a character sequence. -/
def escList : List Char → List Char
  | [] => []
  | c :: rest => escChar c ++ escList rest

/-- Encoding of a JSON string literal, surrounding quotes included. -/
def encStr (s : String) : List Char := qchar :: escList s.data ++ [qchar]

/-- Encoding of one `"key":"value"` member. -/
def encPair (p : String × String) : List Char :=
  encStr p.1 ++ ':' :: encStr p.2

/-- Encoding of the members of a JSON object including the closing brace,
mirroring the compact (no-whitespace) output of `JSON.stringify`. -/
def encPairs : Metadata → List Char
  | [] => [rbrace]
  | [p] => encPair p ++ [rbrace]
  | p :: q :: rest => encPair p ++ ',' :: encPairs (q :: rest)

/-- `JSON.stringify` on a flat string-valued object. -/
def jsonStringify (m : Metadata) : String := ⟨lbrace :: encPairs m⟩

/-- Parse a JSON string body up to and including the closing quote,
returning the decoded characters and the remaining input. -/
def parseJStr : List Char → Option (List Char × List Char)
  | [] => none
  | c :: rest =>
    if c = qchar then some ([], rest)
    else if c = bslash then
      match rest with
      | [] => none
      | c2 :: rest2 => (parseJStr rest2).map (fun pr => (c2 :: pr.1, pr.2))
    else (parseJStr rest).map (fun pr => (c :: pr.1, pr.2))

/-- Parse the members of a JSON object up to and including the closing brace.
The first argument is recursion fuel; one unit is spent per member, and each
member occupies at least seven characters of input, so fuel equal to the
input length (as supplied by `jsonParse`) never runs out. -/
def parseMembers : Nat → List Char → Option (Metadata × List Char)
  | 0, _ => none
  | _ + 1, [] => none
  | fuel + 1, c :: rest =>
    if c = qchar then
      match parseJStr rest with
      | none => none
      | some (k, r1) =>
        match r1 with
        | [] => none
        | c2 :: r2 =>
          if c2 = ':' then
            match r2 with
            | [] => none
            | c3 :: r3 =>
              if c3 = qchar then
                match parseJStr r3 with
                | none => none
                | some (v, r4) =>
                  match r4 with
                  | [] => none
                  | c5 :: r5 =>
                    if c5 = ',' then
                      match parseMembers fuel r5 with
                      | none => none
                      | some (ps, r6) => some ((⟨k⟩, ⟨v⟩) :: ps, r6)
                    else if c5 = rbrace then some ([(⟨k⟩, ⟨v⟩)], r5)
                    else none
              else none
          else none
    else none

/-- `JSON.parse` on the flat string-valued object fragment produced by
`jsonStringify`; inputs outside the fragment yield `none` (in JavaScript,
`JSON.parse` would throw there). -/
def jsonParse (s : String) : Option Metadata :=
  match s.data with
  | [] => none
  | c :: rest =>
    if c = lbrace then
      if rest = [rbrace] then some []
      else
        match parseMembers rest.length rest with
        | some (ps, []) => some ps
        | _ => none
    else none

lemma parseJStr_cons (c : Char) (rest : List Char) :
    parseJStr (c :: rest) =
      if c = qchar then some ([], rest)
      else if c = bslash then
        match rest with
        | [] => none
        | c2 :: rest2 => (parseJStr rest2).map (fun pr => (c2 :: pr.1, pr.2))
      else (parseJStr rest).map (fun pr => (c :: pr.1, pr.2)) := by
  conv_lhs => rw [parseJStr.eq_def]

lemma parseJStr_escList (s : List Char) (tail : List Char) :
    parseJStr (escList s ++ qchar :: tail) = some (s, tail) := by
  induction s with
  | nil =>
    simp [escList, parseJStr_cons]
  | cons c s ih =>
    by_cases hc : c = qchar ∨ c = bslash
    · have h1 : bslash ≠ qchar := by decide
      simp [escList, escChar, hc, parseJStr_cons, h1, ih]
    · push_neg at hc
      simp [escList, escChar, hc.1, hc.2, parseJStr_cons, ih]

lemma encPairs_length_ge (m : Metadata) : m.length ≤ (encPairs m).length := by
  induction m with
  | nil => simp [encPairs]
  | cons p m ih =>
    cases m with
    | nil => simp [encPairs]
    | cons q rest =>
      simp only [encPairs, encPair, encStr, List.length_append, List.length_cons]
      simp only [List.length_cons] at ih
      omega

lemma parseMembers_cons (fuel : Nat) (c : Char) (rest : List Char) :
    parseMembers (fuel + 1) (c :: rest) =
      if c = qchar then
        match parseJStr rest with
        | none => none
        | some (k, r1) =>
          match r1 with
          | [] => none
          | c2 :: r2 =>
            if c2 = ':' then
              match r2 with
              | [] => none
              | c3 :: r3 =>
                if c3 = qchar then
                  match parseJStr r3 with
                  | none => none
                  | some (v, r4) =>
                    match r4 with
                    | [] => none
                    | c5 :: r5 =>
                      if c5 = ',' then
                        match parseMembers fuel r5 with
                        | none => none
                        | some (ps, r6) => some ((⟨k⟩, ⟨v⟩) :: ps, r6)
                      else if c5 = rbrace then some ([(⟨k⟩, ⟨v⟩)], r5)
                      else none
                else none
            else none
      else none := by
  conv_lhs => rw [parseMembers.eq_def]

lemma parseMembers_encPairs (m : Metadata) (hm : m ≠ []) (tail : List Char)
    (fuel : Nat) (hf : m.length ≤ fuel) :
    parseMembers fuel (encPairs m ++ tail) = some (m, tail) := by
  induction m generalizing fuel tail with
  | nil => exact absurd rfl hm
  | cons p m ih =>
    obtain ⟨f, rfl⟩ : ∃ f, fuel = f + 1 := by
      cases fuel with
      | zero => simp at hf
      | succ f => exact ⟨f, rfl⟩
    have hrbc : rbrace ≠ ',' := by decide
    cases m with
    | nil =>
      simp [encPairs, encPair, encStr, parseMembers_cons, parseJStr_escList, hrbc]
    | cons q rest =>
      have hrec := ih (by simp) tail f (by simpa using hf)
      simp [encPairs, encPair, encStr, parseMembers_cons, parseJStr_escList, hrec]

lemma encPairs_ne_single_rbrace (p : String × String) (m : Metadata) :
    encPairs (p :: m) ≠ [rbrace] := by
  have hq : qchar ≠ rbrace := by decide
  cases m with
  | nil =>
    simp only [encPairs, encPair, encStr, List.append_assoc, List.cons_append]
    intro h
    exact hq (List.head_eq_of_cons_eq h)
  | cons q rest =>
    simp only [encPairs, encPair, encStr, List.append_assoc, List.cons_append]
    intro h
    exact hq (List.head_eq_of_cons_eq h)

/-- The JSON codec round-trips every metadata mapping: what `memoryStore`
writes into the TEXT column, `memoryRecall` parses back unchanged. -/
theorem jsonParse_jsonStringify (m : Metadata) : jsonParse (jsonStringify m) = some m := by
  cases m with
  | nil => decide
  | cons p m =>
    have hne := encPairs_ne_single_rbrace p m
    simp only [jsonParse, jsonStringify, if_pos rfl, if_neg hne]
    have := parseMembers_encPairs (p :: m) (by simp) []
      (encPairs (p :: m)).length (encPairs_length_ge (p :: m))
    rw [List.append_nil] at this
    rw [this]
    simp

/-- `jsonStringify` never returns the empty string (its output starts with
the opening brace), so the `entity.metadata || '\x7b\x7d'` fallback in
`memoryRecall` is never taken on stored rows. -/
lemma jsonStringify_ne_empty (m : Metadata) : jsonStringify m ≠ "" := by
  intro h
  have := congrArg String.data h
  simp [jsonStringify] at this

/-! ## Identifier generation

`crypto.randomUUID` supplies every entity id, relation id and session id.
Its guarantee used by the code is global freshness; we model it as an
injective fresh-identifier source driven by a per-store counter (the
textual format of the identifiers is irrelevant to every claim). -/

/-- Fresh identifier for counter value `n` (models `randomUUID()`). -/
def mintUuid (n : Nat) : String := ⟨List.replicate (n + 1) 'u'⟩

lemma mintUuid_injective : Function.Injective mintUuid := by
  intro a b h
  have := congrArg (fun s => s.data.length) h
  simpa [mintUuid] using this

lemma mintUuid_ne_empty (n : Nat) : mintUuid n ≠ "" := by
  intro h
  have := congrArg (fun s => s.data.length) h
  simp [mintUuid] at this

/-! ## Entity-relation store (`memory*` functions, src/index.js lines 161-289)

The SQLite `entities` and `relations` tables are modelled as lists of rows
in insertion order.  The `metadata` TEXT columns hold the `jsonStringify`
serialization.  `better-sqlite3` leaves SQLite's `foreign_keys` pragma at
its default OFF, so the declared FOREIGN KEYs on `relations` are not
enforced — `memoryRelate` never checks that its endpoints exist. -/

/-- A row of the `entities` table. -/
structure EntityRow where
  id : String
  name : String
  type : String
  content : String
  metadata : String
  created_at : Nat
  updated_at : Nat
  deriving Repr, DecidableEq

/-- A row of the `relations` table. -/
structure RelationRow where
  id : String
  from_entity : String
  to_entity : String
  relation_type : String
  metadata : String
  created_at : Nat
  deriving Repr, DecidableEq

/-- The persistent store: both tables plus the fresh-id counter. -/
structure Db where
  entities : List EntityRow
  relations : List RelationRow
  nextId : Nat
  deriving Repr, DecidableEq

/-- The empty store. -/
def Db.empty : Db := ⟨[], [], 0⟩

/-- Well-formedness of every reachable store state: each row id was minted
by the counter, and entity ids are pairwise distinct (they are the PRIMARY
KEY of `entities`). -/
def DbWF (db : Db) : Prop :=
  (∀ e ∈ db.entities, ∃ k, k < db.nextId ∧ e.id = mintUuid k) ∧
  (∀ r ∈ db.relations, ∃ k, k < db.nextId ∧ r.id = mintUuid k) ∧
  (db.entities.map (fun e => e.id)).Nodup

instance (db : Db) : Decidable (DbWF db) := by
  unfold DbWF
  infer_instance

/-- Result of `memoryStore`. -/
structure StoreResult where
  id : String
  name : String
  type : String
  created : Bool
  deriving Repr, DecidableEq

/-- `memoryStore(name, type, content, metadata)`: INSERT a fresh row and
report `created: true`.  `now` is the `CURRENT_TIMESTAMP` at execution. -/
def memoryStore (db : Db) (now : Nat) (name type content : String)
    (metadata : Metadata) : StoreResult × Db :=
  let id := mintUuid db.nextId
  let row : EntityRow :=
    { id := id, name := name, type := type, content := content,
      metadata := jsonStringify metadata, created_at := now, updated_at := now }
  ({ id := id, name := name, type := type, created := true },
   { entities := db.entities ++ [row], relations := db.relations,
     nextId := db.nextId + 1 })

/-- Result of `memoryUpdate`. -/
structure UpdateResult where
  id : String
  updated : Bool
  deriving Repr, DecidableEq

/-- `memoryUpdate(id, content, metadata?)`: UPDATE content (and metadata when
supplied — the JavaScript default is `null`, modelled by `none`), bumping
`updated_at`; `updated` reports whether any row changed. -/
def memoryUpdate (db : Db) (now : Nat) (id content : String)
    (metadata : Option Metadata) : UpdateResult × Db :=
  let entities := db.entities.map (fun e =>
    if e.id = id then
      { e with
        content := content,
        updated_at := now,
        metadata := match metadata with
          | some md => jsonStringify md
          | none => e.metadata }
    else e)
  ({ id := id, updated := db.entities.any (fun e => e.id = id) },
   { db with entities := entities })

/-- The full-row view returned by `memoryRecall` on a hit; `metadata` is the
`JSON.parse` of the stored column (always `some` on rows written by this
code). -/
structure EntityView where
  id : String
  name : String
  type : String
  content : String
  metadata : Option Metadata
  created_at : Nat
  updated_at : Nat
  deriving DecidableEq

/-- Outcome of `memoryRecall`: `\x7bfound: false\x7d` or the full row. -/
inductive RecallResult where
  | notFound
  | found (v : EntityView)
  deriving DecidableEq

/-- The empty-object JSON text, the `|| '\x7b\x7d'` fallback in `memoryRecall`. -/
def emptyObjText : String := jsonStringify []

/-- View of an entity row as returned by `memoryRecall`. -/
def viewOf (e : EntityRow) : EntityView :=
  { id := e.id, name := e.name, type := e.type, content := e.content,
    metadata := jsonParse (if e.metadata = "" then emptyObjText else e.metadata),
    created_at := e.created_at, updated_at := e.updated_at }

/-- `memoryRecall(nameOrId)`: `SELECT * FROM entities WHERE id = ? OR name = ?`
with `stmt.get` taking the first row.  SQLite's OR optimization probes the
terms in order — the `id` PRIMARY-KEY index before `idx_entities_name` — so
an id hit is returned ahead of a name hit. -/
def memoryRecall (db : Db) (nameOrId : String) : RecallResult :=
  match db.entities.find? (fun e => e.id = nameOrId) with
  | some e => .found (viewOf e)
  | none =>
    match db.entities.find? (fun e => e.name = nameOrId) with
    | some e => .found (viewOf e)
    | none => .notFound

/-- ASCII lower-casing, the case folding SQLite's default `LIKE` applies. -/
def asciiLower (c : Char) : Char :=
  if 'A' ≤ c ∧ c ≤ 'Z' then Char.ofNat (c.toNat + 32) else c

/-- SQLite `LIKE` pattern matching (ASCII case-insensitive): `%` matches any
sequence (some suffix of the input matches the rest of the pattern), `_`
matches exactly one character, anything else matches itself up to ASCII
case. -/
def likeMatch : List Char → List Char → Bool
  | [], s => s.isEmpty
  | p :: ps, s =>
    if p = '%' then s.tails.any (fun t => likeMatch ps t)
    else
      match s with
      | [] => false
      | c :: s' =>
        if p = '_' then likeMatch ps s'
        else (asciiLower p = asciiLower c) && likeMatch ps s'

/-- The pattern `'%' ++ query ++ '%'` built by `memorySearch`. -/
def searchPattern (query : String) : List Char := '%' :: query.data ++ ['%']

/-- Whether an entity row satisfies `name LIKE ? OR content LIKE ?`. -/
def searchMatches (query : String) (e : EntityRow) : Bool :=
  likeMatch (searchPattern query) e.name.data ||
    likeMatch (searchPattern query) e.content.data

/-- Whether the optional `type` argument adds the `AND type = ?` clause:
JavaScript's `if (type)` skips the clause for `null` (here `none`) and for
the empty string, both falsy. -/
def typeFilterActive (type? : Option String) : Bool :=
  match type? with
  | none => false
  | some t => t ≠ ""

/-- One row of a `memorySearch` result: content is previewed via
`content.substring(0, 200)` with `'...'` appended when longer than 200. -/
structure SearchRow where
  id : String
  name : String
  type : String
  content : String
  updated_at : Nat
  deriving DecidableEq

/-- The content preview of a search result row. -/
def previewOf (e : EntityRow) : SearchRow :=
  { id := e.id, name := e.name, type := e.type,
    content := ⟨e.content.data.take 200⟩ ++ (if 200 < e.content.data.length then "..." else ""),
    updated_at := e.updated_at }

/-- Result of `memorySearch`. -/
structure SearchResult where
  count : Nat
  entities : List SearchRow
  deriving DecidableEq

/-- The `ORDER BY updated_at DESC` comparison. -/
def updatedDesc (a b : EntityRow) : Prop := b.updated_at ≤ a.updated_at

instance : DecidableRel updatedDesc := fun a b => Nat.decLe b.updated_at a.updated_at

instance : IsTotal EntityRow updatedDesc :=
  ⟨fun a b => (Nat.le_total b.updated_at a.updated_at)⟩

instance : IsTrans EntityRow updatedDesc :=
  ⟨fun _ _ _ hab hbc => Nat.le_trans hbc hab⟩

/-- `memorySearch(query, type?)`: rows matching `(name LIKE '%q%' OR content
LIKE '%q%')` and the optional type clause, `ORDER BY updated_at DESC LIMIT
50`, previewed.  `CURRENT_TIMESTAMP` text compares lexicographically in
chronological order, so the `Nat` ordering models the TEXT ordering. -/
def memorySearch (db : Db) (query : String) (type? : Option String) : SearchResult :=
  let hits := db.entities.filter (fun e =>
    searchMatches query e &&
      (if typeFilterActive type? then e.type = type?.getD "" else true))
  let sorted := hits.insertionSort updatedDesc
  let limited := sorted.take 50
  { count := limited.length, entities := limited.map previewOf }

/-- Result of `memoryDelete`. -/
structure MemDeleteResult where
  deleted : Bool
  deriving DecidableEq

/-- `memoryDelete(id)`: `DELETE FROM entities WHERE id = ?`; the `relations`
table is untouched (no cascade). -/
def memoryDelete (db : Db) (id : String) : MemDeleteResult × Db :=
  ({ deleted := db.entities.any (fun e => e.id = id) },
   { db with entities := db.entities.filter (fun e => ¬ e.id = id) })

/-- Result of `memoryRelate`. -/
structure RelateResult where
  id : String
  created : Bool
  deriving DecidableEq

/-- `memoryRelate(fromId, toId, relationType, metadata)`: INSERT into
`relations` with a fresh id.  No existence check on either endpoint: the
FOREIGN KEY declarations are inert because the `foreign_keys` pragma is
never enabled. -/
def memoryRelate (db : Db) (now : Nat) (fromId toId relationType : String)
    (metadata : Metadata) : RelateResult × Db :=
  let id := mintUuid db.nextId
  let row : RelationRow :=
    { id := id, from_entity := fromId, to_entity := toId,
      relation_type := relationType, metadata := jsonStringify metadata,
      created_at := now }
  ({ id := id, created := true },
   { entities := db.entities, relations := db.relations ++ [row],
     nextId := db.nextId + 1 })

/-- A relation as returned by `memoryGetRelations`: the raw row plus the
LEFT-JOINed denormalized endpoint names/types, `none` (SQL NULL) when the
endpoint entity does not exist. -/
structure RelationOut where
  id : String
  from_entity : String
  to_entity : String
  relation_type : String
  metadata : String
  created_at : Nat
  from_name : Option String
  from_type : Option String
  to_name : Option String
  to_type : Option String
  deriving DecidableEq

/-- Annotate one relation row with its LEFT-JOIN columns against `db`. -/
def annotateRelation (db : Db) (r : RelationRow) : RelationOut :=
  let fromEnt := db.entities.find? (fun e => e.id = r.from_entity)
  let toEnt := db.entities.find? (fun e => e.id = r.to_entity)
  { id := r.id, from_entity := r.from_entity, to_entity := r.to_entity,
    relation_type := r.relation_type, metadata := r.metadata,
    created_at := r.created_at,
    from_name := fromEnt.map (fun e => e.name),
    from_type := fromEnt.map (fun e => e.type),
    to_name := toEnt.map (fun e => e.name),
    to_type := toEnt.map (fun e => e.type) }

/-- Result of `memoryGetRelations`. -/
structure RelationsResult where
  count : Nat
  relations : List RelationOut
  deriving DecidableEq

/-- `memoryGetRelations(entityId)`: every relation having `entityId` as
either endpoint, LEFT JOINed with `entities` on both sides. -/
def memoryGetRelations (db : Db) (entityId : String) : RelationsResult :=
  let rels := db.relations.filter (fun r =>
    r.from_entity = entityId || r.to_entity = entityId)
  { count := rels.length, relations := rels.map (annotateRelation db) }

/-! ## Session registry and the `/mcp` HTTP endpoints (lines 1006-1084)

`const sessions = new Map()` keyed by session id, each value the
`\x7b transport, server \x7d` pair built for that session.  The pair's two
objects are modelled by identity tokens drawn from a fresh counter (object
identity is all the claims use).  A JavaScript `Map` is modelled as an
association list in insertion order with replace-on-set. -/

/-- The stored `\x7b transport, server \x7d` pair of one session. -/
structure SessionEntry where
  server : Nat
  transport : Nat
  deriving DecidableEq, Repr

/-- `Map.get` (first — unique — binding of the key). -/
def mapGet {α : Type} (m : List (String × α)) (k : String) : Option α :=
  (m.find? (fun p => p.1 = k)).map (fun p => p.2)

/-- `Map.set`: replace the binding in place, or append a new one. -/
def mapSet {α : Type} (m : List (String × α)) (k : String) (v : α) :
    List (String × α) :=
  if m.any (fun p => p.1 = k) then
    m.map (fun p => if p.1 = k then (k, v) else p)
  else m ++ [(k, v)]

/-- `Map.delete`. -/
def mapDelete {α : Type} (m : List (String × α)) (k : String) :
    List (String × α) :=
  m.filter (fun p => ¬ p.1 = k)

/-- Process-wide mutable state of the transport layer: the session map plus
the fresh-identifier counters. -/
structure ServerState where
  sessions : List (String × SessionEntry)
  nextUuid : Nat
  nextEngine : Nat
  deriving DecidableEq, Repr

/-- The state at process start. -/
def ServerState.initial : ServerState := ⟨[], 0, 0⟩

/-- What `POST /mcp` hands to `transport.handleRequest`: the echoed
`Mcp-Session-Id` header value and the engine pair serving the request. -/
structure PostOutcome where
  sid : String
  entry : SessionEntry
  deriving DecidableEq, Repr

/-- The session-creation branch of `POST /mcp`: mint a fresh id via
`randomUUID`, build a fresh `createMCPServer()` / transport pair, record it
in the map (the `onsessioninitialized` callback and the following
`sessions.set` store the same binding), and serve the request with it. -/
def createSession (st : ServerState) : PostOutcome × ServerState :=
  let sid := mintUuid st.nextUuid
  let entry : SessionEntry := { server := st.nextEngine, transport := st.nextEngine }
  (⟨sid, entry⟩,
   { sessions := mapSet st.sessions sid entry,
     nextUuid := st.nextUuid + 1,
     nextEngine := st.nextEngine + 1 })

/-- `app.post('/mcp')`: `if (sessionId && sessions.has(sessionId))` reuse the
stored pair, else create a session.  The header is `none` when absent; the
empty string is falsy in JavaScript and also takes the creation branch. -/
def postMcp (st : ServerState) (header : Option String) : PostOutcome × ServerState :=
  match header with
  | some sid =>
    if sid ≠ "" then
      match mapGet st.sessions sid with
      | some entry => (⟨sid, entry⟩, st)
      | none => createSession st
    else createSession st
  | none => createSession st

/-- The HTTP status and body flavour of `DELETE /mcp`. -/
structure DeleteOutcome where
  status : Nat
  deriving DecidableEq, Repr

/-- `app.delete('/mcp')`: tear the session down (200) when the header names a
live one, else 404 with no state change. -/
def deleteMcp (st : ServerState) (header : Option String) : DeleteOutcome × ServerState :=
  match header with
  | some sid =>
    if sid ≠ "" ∧ (mapGet st.sessions sid).isSome then
      (⟨200⟩, { st with sessions := mapDelete st.sessions sid })
    else (⟨404⟩, st)
  | none => (⟨404⟩, st)

/-- One inbound `/mcp` request of either method. -/
inductive McpRequest where
  | post (header : Option String)
  | del (header : Option String)
  deriving DecidableEq, Repr

/-- Apply one `/mcp` request to the server state. -/
def applyRequest (st : ServerState) : McpRequest → ServerState
  | .post h => (postMcp st h).2
  | .del h => (deleteMcp st h).2

/-- Run a sequence of `/mcp` requests against the server state. -/
def runRequests (reqs : List McpRequest) (st : ServerState) : ServerState :=
  reqs.foldl applyRequest st

/-- Well-formedness of every reachable server state: each session key was
minted by the uuid counter, and the keys are pairwise distinct (a `Map` has
one binding per key). -/
def SWF (st : ServerState) : Prop :=
  (∀ p ∈ st.sessions, ∃ k, k < st.nextUuid ∧ p.1 = mintUuid k) ∧
  (st.sessions.map (fun q => q.1)).Nodup

instance (st : ServerState) : Decidable (SWF st) := by
  unfold SWF
  infer_instance

/-! ## Tool registry and the CallTool dispatch switch (lines 525-1004)

`createMCPServer` registers a ListTools handler returning 29 tool
descriptors and a CallTool handler whose `switch (name)` has one case per
registered tool and a default case `throw new Error('Unknown tool: ' + name)`.
The whole switch sits inside `try/catch`; the catch converts any thrown
error into a normal tool result carrying `isError: true`, so the handler
never raises towards the transport. -/

/-- The 29 tool names registered in the ListTools descriptor list. -/
def registeredToolNames : List String :=
  ["fs_write_file", "fs_read_file", "fs_edit_file", "fs_delete_file",
   "fs_create_directory", "fs_list_directory", "fs_directory_tree",
   "memory_store", "memory_update", "memory_recall", "memory_search",
   "memory_list", "memory_delete", "memory_relate", "memory_get_relations",
   "railway_list_projects", "railway_create_project", "railway_create_service",
   "railway_deploy", "railway_generate_domain", "railway_set_variables",
   "railway_get_deployments",
   "supabase_list_projects", "supabase_get_project", "supabase_create_project",
   "supabase_list_organizations", "supabase_run_sql", "supabase_list_tables",
   "supabase_create_table"]

/-- The case labels of the CallTool `switch (name)`, transcribed in source
order; `true` exactly when some case other than `default` applies. -/
def knownTool (name : String) : Bool :=
  match name with
  | "fs_write_file" => true
  | "fs_read_file" => true
  | "fs_edit_file" => true
  | "fs_delete_file" => true
  | "fs_create_directory" => true
  | "fs_list_directory" => true
  | "fs_directory_tree" => true
  | "memory_store" => true
  | "memory_update" => true
  | "memory_recall" => true
  | "memory_search" => true
  | "memory_list" => true
  | "memory_delete" => true
  | "memory_relate" => true
  | "memory_get_relations" => true
  | "railway_list_projects" => true
  | "railway_create_project" => true
  | "railway_create_service" => true
  | "railway_deploy" => true
  | "railway_generate_domain" => true
  | "railway_set_variables" => true
  | "railway_get_deployments" => true
  | "supabase_list_projects" => true
  | "supabase_get_project" => true
  | "supabase_create_project" => true
  | "supabase_list_organizations" => true
  | "supabase_run_sql" => true
  | "supabase_list_tables" => true
  | "supabase_create_table" => true
  | _ => false

/-- The body of the CallTool `try` block: a matching case runs its handler
(the `run` parameter abstracts the awaited filesystem/memory/railway/supabase
handler call, which returns the serialized result payload or throws); the
default case throws `Unknown tool: <name>`. -/
def dispatchCallTool (name : String) (run : String → Except String String) :
    Except String String :=
  if knownTool name then run name
  else .error ("Unknown tool: " ++ name)

/-- A tool result as returned by the CallTool handler: the text of the
single content item, plus the `isError` flag (absent — falsy — on success). -/
structure CallToolResult where
  text : String
  isError : Bool
  deriving DecidableEq, Repr

/-- The CallTool request handler: `try` the dispatch, `catch` any thrown
error into a normal `isError: true` result.  The function is total into
`CallToolResult`: a dispatch failure never becomes a protocol-plane error,
so the transport still answers with a success envelope. -/
def handleCallTool (name : String) (run : String → Except String String) :
    CallToolResult :=
  match dispatchCallTool name run with
  | .ok payload => { text := payload, isError := false }
  | .error msg => { text := "Error: " ++ msg, isError := true }

/-! ## Workspace filesystem helpers (lines 74-159)

`resolvePath` resolves the caller path against `WORKSPACE_DIR` (an absolute
path, `/tmp/workspace` by default) with `path.resolve` and throws unless the
resolved string starts with the workspace prefix; each filesystem tool calls
it before touching the disk.  The filesystem is modelled as a map from
absolute paths to file contents plus a set of known directories; sizes are
content lengths, and `stat` timestamps are not modelled (no claim mentions
them). -/

/-- JavaScript/Node `String.prototype.startsWith`, character-wise. -/
def strStartsWith (s pre : String) : Bool := pre.data.isPrefixOf s.data

/-- Split a character sequence on `/`. -/
def splitOnSlash : List Char → List (List Char)
  | [] => [[]]
  | c :: rest =>
    let r := splitOnSlash rest
    if c = '/' then [] :: r
    else
      match r with
      | [] => [[c]]
      | g :: gs => (c :: g) :: gs

/-- Join path components with `/`. -/
def joinSlash : List (List Char) → List Char
  | [] => []
  | [c] => c
  | c :: d :: rest => c ++ '/' :: joinSlash (d :: rest)

/-- POSIX `path.resolve(base, p)` for an absolute `base`: take `p` itself
when absolute, otherwise join, then normalize `.`/`..`/empty components
(`..` at the root stays at the root). -/
def pathResolve (base p : String) : String :=
  let raw := if strStartsWith p "/" then p.data else base.data ++ '/' :: p.data
  let stack := (splitOnSlash raw).foldl
    (fun st c =>
      if c = [] ∨ c = ['.'] then st
      else if c = ['.', '.'] then st.tail
      else c :: st) []
  ⟨'/' :: joinSlash stack.reverse⟩

/-- The error message thrown on a path escaping the workspace. -/
def accessDeniedMsg : String := "Access denied: Path is outside workspace"

/-- `resolvePath(filePath)`: resolve against the workspace `w` and throw
unless the result starts with the workspace string. -/
def resolvePath (w filePath : String) : Except String String :=
  let resolved := pathResolve w filePath
  if strStartsWith resolved w then .ok resolved
  else .error accessDeniedMsg

/-- The modelled on-disk state: file contents by absolute path, plus the set
of directories created so far (the workspace root always exists — it is
created at startup). -/
structure FsState where
  files : List (String × String)
  dirs : List String
  deriving DecidableEq, Repr

/-- The state with an empty workspace. -/
def FsState.empty : FsState := ⟨[], []⟩

/-- `path.dirname` of an absolute normalized path. -/
def dirname (p : String) : String :=
  let comps := (splitOnSlash p.data).filter (fun c => ¬ c = [])
  match comps.dropLast with
  | [] => "/"
  | cs => ⟨'/' :: joinSlash cs⟩

/-- `path.basename` of an absolute normalized path. -/
def basename (p : String) : String :=
  ⟨((((splitOnSlash p.data).filter (fun c => ¬ c = [])).getLast?).getD [])⟩

/-- Split a string around the first occurrence of `pat`, or `none` when
absent; models the search `String.prototype.includes`/`replace` perform. -/
def splitFirst (pat : List Char) : List Char → Option (List Char × List Char)
  | [] => if pat.isPrefixOf ([] : List Char) then some ([], []) else none
  | c :: rest =>
    if pat.isPrefixOf (c :: rest) then some ([], (c :: rest).drop pat.length)
    else (splitFirst pat rest).map (fun pr => (c :: pr.1, pr.2))

/-- JavaScript `haystack.includes(needle)`. -/
def containsSub (pat l : List Char) : Bool := (splitFirst pat l).isSome

/-- JavaScript `content.replace(oldText, newText)` with a string pattern:
replaces the first occurrence only. -/
def replaceFirst (oldText newText content : String) : String :=
  match splitFirst oldText.data content.data with
  | some (before, after) => ⟨before ++ newText.data ++ after⟩
  | none => content

/-- Result of `writeFile`. -/
structure WriteResult where
  success : Bool
  path : String
  size : Nat
  deriving DecidableEq, Repr

/-- `writeFile(filePath, content)`: resolve, `mkdir -p` the parent, write. -/
def writeFile (w filePath content : String) (fs : FsState) :
    Except String WriteResult × FsState :=
  match resolvePath w filePath with
  | .error m => (.error m, fs)
  | .ok fullPath =>
    (.ok { success := true, path := filePath, size := content.length },
     { files := mapSet fs.files fullPath content,
       dirs := fs.dirs ++ [dirname fullPath] })

/-- Result of `readFile`. -/
structure ReadResult where
  content : String
  path : String
  size : Nat
  deriving DecidableEq, Repr

/-- `readFile(filePath)`: resolve, read; a missing file throws ENOENT. -/
def readFile (w filePath : String) (fs : FsState) :
    Except String ReadResult × FsState :=
  match resolvePath w filePath with
  | .error m => (.error m, fs)
  | .ok fullPath =>
    match mapGet fs.files fullPath with
    | none => (.error ("ENOENT: no such file or directory, open " ++ fullPath), fs)
    | some content =>
      (.ok { content := content, path := filePath, size := content.length }, fs)

/-- Result of `editFile`, `deleteFile` and `createDirectory`. -/
structure PathOpResult where
  success : Bool
  path : String
  deriving DecidableEq, Repr

/-- `editFile(filePath, oldText, newText)`: resolve, read, require the old
text to occur, replace its first occurrence, write back. -/
def editFile (w filePath oldText newText : String) (fs : FsState) :
    Except String PathOpResult × FsState :=
  match resolvePath w filePath with
  | .error m => (.error m, fs)
  | .ok fullPath =>
    match mapGet fs.files fullPath with
    | none => (.error ("ENOENT: no such file or directory, open " ++ fullPath), fs)
    | some content =>
      if containsSub oldText.data content.data then
        (.ok { success := true, path := filePath },
         { fs with files := mapSet fs.files fullPath (replaceFirst oldText newText content) })
      else (.error "Old text not found in file", fs)

/-- `deleteFile(filePath)`: resolve, unlink; missing files throw ENOENT. -/
def deleteFile (w filePath : String) (fs : FsState) :
    Except String PathOpResult × FsState :=
  match resolvePath w filePath with
  | .error m => (.error m, fs)
  | .ok fullPath =>
    if (mapGet fs.files fullPath).isSome then
      (.ok { success := true, path := filePath },
       { fs with files := mapDelete fs.files fullPath })
    else (.error ("ENOENT: no such file or directory, unlink " ++ fullPath), fs)

/-- `createDirectory(dirPath)`: resolve, `mkdir -p`. -/
def createDirectory (w dirPath : String) (fs : FsState) :
    Except String PathOpResult × FsState :=
  match resolvePath w dirPath with
  | .error m => (.error m, fs)
  | .ok fullPath =>
    (.ok { success := true, path := dirPath }, { fs with dirs := fs.dirs ++ [fullPath] })

/-- Whether a directory exists: the workspace root is created at startup,
other directories once created. -/
def dirExists (w : String) (fs : FsState) (p : String) : Bool :=
  p = w || fs.dirs.contains p

/-- Names of the subdirectories recorded directly under `dir`. -/
def subdirNames (fs : FsState) (dir : String) : List String :=
  ((fs.dirs.filter (fun d => dirname d = dir)).map basename).dedup

/-- One row of a `listDirectory` listing (`size`/`modified` from `fs.stat`
are not modelled — no claim mentions them). -/
structure ListItem where
  name : String
  type : String
  deriving DecidableEq, Repr

/-- Result of `listDirectory`. -/
structure ListDirResult where
  path : String
  items : List ListItem
  deriving DecidableEq, Repr

/-- `listDirectory(dirPath)`: resolve, `readdir`; a missing directory throws
ENOENT. -/
def listDirectory (w dirPath : String) (fs : FsState) :
    Except String ListDirResult × FsState :=
  match resolvePath w dirPath with
  | .error m => (.error m, fs)
  | .ok fullPath =>
    if dirExists w fs fullPath then
      (.ok { path := dirPath,
             items :=
               (fs.files.filter (fun p => dirname p.1 = fullPath)).map
                 (fun p => { name := basename p.1, type := "file" }) ++
               (subdirNames fs fullPath).map
                 (fun n => { name := n, type := "directory" }) }, fs)
    else (.error ("ENOENT: no such file or directory, scandir " ++ fullPath), fs)

/-- A node of the `getDirectoryTree` result; `children` is absent on files
and on directories at the depth cut-off. -/
inductive TreeNode where
  | node (name : String) (type : String) (children : Option (List TreeNode))

/-- `buildTree`: list files and directories under `dir`, recursing into
directories while depth remains (`remaining = maxDepth - depth`). -/
def buildTree : Nat → FsState → String → List TreeNode
  | 0, fs, dir =>
    (fs.files.filter (fun p => dirname p.1 = dir)).map
      (fun p => TreeNode.node (basename p.1) "file" none) ++
    (subdirNames fs dir).map (fun n => TreeNode.node n "directory" none)
  | r + 1, fs, dir =>
    (fs.files.filter (fun p => dirname p.1 = dir)).map
      (fun p => TreeNode.node (basename p.1) "file" none) ++
    (subdirNames fs dir).map
      (fun n => TreeNode.node n "directory" (some (buildTree r fs (dir ++ "/" ++ n))))

/-- Result of `getDirectoryTree`. -/
structure TreeResult where
  path : String
  tree : List TreeNode

/-- `getDirectoryTree(dirPath, maxDepth)`: resolve, then build the tree. -/
def getDirectoryTree (w dirPath : String) (maxDepth : Nat) (fs : FsState) :
    Except String TreeResult × FsState :=
  match resolvePath w dirPath with
  | .error m => (.error m, fs)
  | .ok fullPath =>
    if dirExists w fs fullPath then
      (.ok { path := dirPath, tree := buildTree maxDepth fs fullPath }, fs)
    else (.error ("ENOENT: no such file or directory, scandir " ++ fullPath), fs)

/-! ## Interleaved session creation (the event-loop race of `POST /mcp`)

The creation branch of `POST /mcp` suspends (`await server.connect`) between
minting the session id and the final `sessions.set`, so several in-flight
session-creating requests interleave on the event loop.  Each such request
is a task taking two atomic micro-steps — mint (synchronous id/engine
construction) and register (`sessions.set`) — and a schedule interleaves
them arbitrarily. -/

/-- Progress of one session-creating request. -/
inductive TaskPhase where
  | pending
  | minted (sid : String) (entry : SessionEntry)
  | registered (sid : String) (entry : SessionEntry)
  deriving DecidableEq, Repr

/-- The session id a task has minted, if any. -/
def taskSid : TaskPhase → Option String
  | .pending => none
  | .minted sid _ => some sid
  | .registered sid _ => some sid

/-- Event-loop state with the in-flight session-creating tasks. -/
structure ConcState where
  tasks : List TaskPhase
  sessions : List (String × SessionEntry)
  nextUuid : Nat
  nextEngine : Nat
  deriving DecidableEq, Repr

/-- Run the next micro-step of task `i` (no-op on finished or absent tasks). -/
def stepTask (sys : ConcState) (i : Nat) : ConcState :=
  match sys.tasks[i]? with
  | some .pending =>
    let sid := mintUuid sys.nextUuid
    let entry : SessionEntry := { server := sys.nextEngine, transport := sys.nextEngine }
    { sys with
      tasks := sys.tasks.set i (.minted sid entry),
      nextUuid := sys.nextUuid + 1,
      nextEngine := sys.nextEngine + 1 }
  | some (.minted sid entry) =>
    { sys with
      tasks := sys.tasks.set i (.registered sid entry),
      sessions := mapSet sys.sessions sid entry }
  | _ => sys

/-- Run an arbitrary interleaving of task micro-steps. -/
def runSchedule (sch : List Nat) (sys : ConcState) : ConcState :=
  match sch with
  | [] => sys
  | i :: rest => runSchedule rest (stepTask sys i)

/-- `n` fresh session-creating requests arriving at server state `st`. -/
def initConc (n : Nat) (st : ServerState) : ConcState :=
  { tasks := List.replicate n .pending, sessions := st.sessions,
    nextUuid := st.nextUuid, nextEngine := st.nextEngine }

/-- Invariant of the interleaved execution: every minted id comes from the
counter, minted ids are pairwise distinct across tasks, session keys come
from the counter, and session keys are pairwise distinct. -/
def ConcInv (sys : ConcState) : Prop :=
  (∀ (i : Nat) (p : TaskPhase) (sid : String),
    sys.tasks[i]? = some p → taskSid p = some sid →
    ∃ k, k < sys.nextUuid ∧ sid = mintUuid k) ∧
  (∀ (i j : Nat) (pi pj : TaskPhase) (sidi sidj : String), i ≠ j →
    sys.tasks[i]? = some pi → sys.tasks[j]? = some pj →
    taskSid pi = some sidi → taskSid pj = some sidj → sidi ≠ sidj) ∧
  (∀ q ∈ sys.sessions, ∃ k, k < sys.nextUuid ∧ q.1 = mintUuid k) ∧
  (sys.sessions.map (fun q => q.1)).Nodup

/-! ## Association-list map lemmas -/

lemma find?_key_replace_ne {α : Type} (m : List (String × α)) (k k' : String) (v : α)
    (h : k' ≠ k) :
    List.find? (fun p => p.1 = k) (m.map (fun p => if p.1 = k' then (k', v) else p)) =
      List.find? (fun p => p.1 = k) m := by
  induction m with
  | nil => rfl
  | cons p m ih =>
    by_cases hp : p.1 = k'
    · have hk : ¬ p.1 = k := by rw [hp]; exact h
      simp only [List.map_cons, if_pos hp, List.find?_cons]
      simp [h, hk, ih]
    · simp only [List.map_cons, if_neg hp, List.find?_cons]
      by_cases hk : p.1 = k
      · simp [hk]
      · simp [hk, ih]

lemma find?_key_replace_self {α : Type} (m : List (String × α)) (k : String) (v : α)
    (hany : m.any (fun p => p.1 = k)) :
    List.find? (fun p => p.1 = k) (m.map (fun p => if p.1 = k then (k, v) else p)) =
      some (k, v) := by
  induction m with
  | nil => simp at hany
  | cons p m ih =>
    by_cases hp : p.1 = k
    · simp [List.find?_cons, hp]
    · simp only [List.any_cons, Bool.or_eq_true, decide_eq_true_eq] at hany
      rcases hany with h | h
      · exact absurd h hp
      · simp only [List.map_cons, if_neg hp, List.find?_cons]
        simp [hp, ih h]

lemma mapGet_set_self {α : Type} (m : List (String × α)) (k : String) (v : α) :
    mapGet (mapSet m k v) k = some v := by
  unfold mapGet mapSet
  split
  · rename_i hany
    rw [find?_key_replace_self m k v hany]
    rfl
  · rename_i hany
    have hnone : List.find? (fun p => p.1 = k) m = none := by
      rw [List.find?_eq_none]
      intro x hx
      simp only [List.any_eq_true] at hany
      simpa using fun hxk => hany ⟨x, hx, by simpa using hxk⟩
    rw [List.find?_append, hnone]
    simp

lemma mapGet_set_ne {α : Type} (m : List (String × α)) (k k' : String) (v : α)
    (h : k' ≠ k) : mapGet (mapSet m k' v) k = mapGet m k := by
  unfold mapGet mapSet
  split
  · rw [find?_key_replace_ne m k k' v h]
  · rw [List.find?_append]
    have : List.find? (fun p => p.1 = k) [(k', v)] = none := by
      simp [List.find?, h]
    rw [this]
    simp

lemma mapGet_delete_self {α : Type} (m : List (String × α)) (k : String) :
    mapGet (mapDelete m k) k = none := by
  unfold mapGet mapDelete
  have : List.find? (fun p => p.1 = k) (m.filter (fun p => ¬ p.1 = k)) = none := by
    rw [List.find?_eq_none]
    intro x hx
    rw [List.mem_filter] at hx
    simpa using fun hxk => by simp [hxk] at hx
  rw [this]
  rfl

lemma mapGet_delete_ne {α : Type} (m : List (String × α)) (k k' : String)
    (h : k' ≠ k) : mapGet (mapDelete m k') k = mapGet m k := by
  unfold mapGet mapDelete
  congr 1
  induction m with
  | nil => rfl
  | cons p m ih =>
    rw [List.filter_cons]
    by_cases hp : p.1 = k'
    · have hk : ¬ p.1 = k := by rw [hp]; exact h
      rw [if_neg (by simpa using hp)]
      rw [List.find?_cons_of_neg _ (by simpa using hk)]
      exact ih
    · rw [if_pos (by simpa using hp)]
      by_cases hk : p.1 = k
      · rw [List.find?_cons_of_pos _ (by simpa using hk),
          List.find?_cons_of_pos _ (by simpa using hk)]
      · rw [List.find?_cons_of_neg _ (by simpa using hk),
          List.find?_cons_of_neg _ (by simpa using hk)]
        exact ih

lemma mapGet_mem {α : Type} (m : List (String × α)) (k : String) (v : α)
    (h : mapGet m k = some v) : (k, v) ∈ m := by
  unfold mapGet at h
  rcases ho : List.find? (fun p => p.1 = k) m with _ | p
  · rw [ho] at h
    exact absurd h (by simp)
  · rw [ho] at h
    simp only [Option.map_some', Option.some.injEq] at h
    have hm := List.mem_of_find?_eq_some ho
    have hk := List.find?_some ho
    simp only [decide_eq_true_eq] at hk
    have hpkv : p = (k, v) := by
      cases p
      simp only [Prod.mk.injEq]
      exact ⟨hk, h⟩
    rw [← hpkv]
    exact hm

lemma mapSet_keys_nodup {α : Type} (m : List (String × α)) (k : String) (v : α)
    (h : (m.map (fun q => q.1)).Nodup) :
    ((mapSet m k v).map (fun q => q.1)).Nodup := by
  unfold mapSet
  split
  · have heq : (m.map (fun p => if p.1 = k then (k, v) else p)).map (fun q => q.1) =
        m.map (fun q => q.1) := by
      rw [List.map_map]
      apply List.map_congr_left
      intro p _
      by_cases hp : p.1 = k
      · simp [hp]
      · simp [hp]
    rw [heq]
    exact h
  · rename_i hany
    rw [List.map_append, List.nodup_append]
    refine ⟨h, by simp, ?_⟩
    intro a ha
    simp only [List.map_cons, List.map_nil, List.mem_singleton]
    intro hak
    rw [List.mem_map] at ha
    obtain ⟨p, hp, hpa⟩ := ha
    simp only [List.any_eq_true] at hany
    exact hany ⟨p, hp, by simp [hpa, hak]⟩

lemma mem_value_eq_of_keys_nodup {α : Type} (m : List (String × α))
    (h : (m.map (fun q => q.1)).Nodup) (k : String) (v1 v2 : α)
    (h1 : (k, v1) ∈ m) (h2 : (k, v2) ∈ m) : v1 = v2 := by
  induction m with
  | nil => simp at h1
  | cons p m ih =>
    rw [List.map_cons, List.nodup_cons] at h
    rcases List.mem_cons.mp h1 with e1 | e1 <;>
      rcases List.mem_cons.mp h2 with e2 | e2
    · rw [← e1] at e2
      exact (congrArg Prod.snd e2).symm
    · exfalso
      exact h.1 (List.mem_map.mpr ⟨(k, v2), e2, by rw [← e1]⟩)
    · exfalso
      exact h.1 (List.mem_map.mpr ⟨(k, v1), e1, by rw [← e2]⟩)
    · exact ih h.2 e1 e2

/-! ## Store-level lemmas -/

lemma DbWF_fresh_entity (db : Db) (h : DbWF db) (e : EntityRow)
    (he : e ∈ db.entities) : e.id ≠ mintUuid db.nextId := by
  obtain ⟨k, hk, hek⟩ := h.1 e he
  rw [hek]
  intro hc
  exact absurd (mintUuid_injective hc) (Nat.ne_of_lt hk)

lemma find?_entity_id_of_nodup (l : List EntityRow)
    (hnd : (l.map (fun e => e.id)).Nodup) (e : EntityRow) (he : e ∈ l)
    (q : String) (hq : e.id = q) :
    l.find? (fun x => x.id = q) = some e := by
  induction l with
  | nil => simp at he
  | cons p l ih =>
    rw [List.map_cons, List.nodup_cons] at hnd
    rcases List.mem_cons.mp he with rfl | hel
    · exact List.find?_cons_of_pos _ (by simpa using hq)
    · by_cases hp : p.id = q
      · exfalso
        apply hnd.1
        rw [List.mem_map]
        exact ⟨e, hel, by rw [hq, hp]⟩
      · rw [List.find?_cons_of_neg _ (by simpa using hp)]
        exact ih hnd.2 hel

/-- C1 (claim theorem below builds on this): recalling the id returned by a
store hits exactly the stored row. -/
lemma store_then_recall (db : Db) (now : Nat) (name type content : String)
    (metadata : Metadata) (hwf : DbWF db) :
    memoryRecall (memoryStore db now name type content metadata).2
        (memoryStore db now name type content metadata).1.id =
      RecallResult.found
        { id := mintUuid db.nextId, name := name, type := type,
          content := content, metadata := some metadata,
          created_at := now, updated_at := now } := by
  unfold memoryStore memoryRecall
  simp only
  rw [List.find?_append]
  have hl : List.find? (fun e => e.id = mintUuid db.nextId) db.entities = none := by
    rw [List.find?_eq_none]
    intro e he
    simpa using DbWF_fresh_entity db hwf e he
  rw [hl]
  simp only [Option.none_or]
  rw [List.find?_cons_of_pos _ (by simp)]
  unfold viewOf
  simp only [RecallResult.found.injEq]
  have hne : ¬ jsonStringify metadata = "" := jsonStringify_ne_empty metadata
  simp [hne, jsonParse_jsonStringify]

/-- C1: for every name, type, content and metadata mapping, `store` followed
by `recall` on the returned id finds the entity (`found = true`) with content
and metadata equal to what was stored, on every well-formed store state. -/
theorem claim_C1_store_recall_roundtrip (db : Db) (now : Nat)
    (name type content : String) (metadata : Metadata) (hwf : DbWF db) :
    ∃ v : EntityView,
      memoryRecall (memoryStore db now name type content metadata).2
          (memoryStore db now name type content metadata).1.id =
        RecallResult.found v ∧
      v.content = content ∧ v.metadata = some metadata :=
  ⟨_, store_then_recall db now name type content metadata hwf, rfl, rfl⟩

/-- Witness for C1 at a concrete store state and entity. -/
theorem claim_C1_store_recall_roundtrip_witness :
    ∃ v : EntityView,
      memoryRecall (memoryStore Db.empty 5 "cfg" "project" "hello" [("a", "1")]).2
          (memoryStore Db.empty 5 "cfg" "project" "hello" [("a", "1")]).1.id =
        RecallResult.found v ∧
      v.content = "hello" ∧ v.metadata = some [("a", "1")] :=
  claim_C1_store_recall_roundtrip Db.empty 5 "cfg" "project" "hello" [("a", "1")]
    (by decide)

/-- C3: `recall(nameOrId)` returns exactly the entities matching by id or by
name: (i) when nothing matches it returns the not-found result rather than
failing; (ii) any hit is an entity whose id or name equals the argument;
(iii) an id hit takes precedence, even when another entity's name equals the
argument. -/
theorem claim_C3_recall_lookup (db : Db) (q : String) (hwf : DbWF db) :
    ((∀ e ∈ db.entities, e.id ≠ q ∧ e.name ≠ q) →
      memoryRecall db q = RecallResult.notFound) ∧
    (∀ v, memoryRecall db q = RecallResult.found v →
      ∃ e ∈ db.entities, (e.id = q ∨ e.name = q) ∧ v = viewOf e) ∧
    (∀ e ∈ db.entities, e.id = q →
      memoryRecall db q = RecallResult.found (viewOf e)) := by
  refine ⟨?_, ?_, ?_⟩
  · intro h
    unfold memoryRecall
    have h1 : List.find? (fun e => e.id = q) db.entities = none := by
      rw [List.find?_eq_none]
      intro e he
      simpa using (h e he).1
    have h2 : List.find? (fun e => e.name = q) db.entities = none := by
      rw [List.find?_eq_none]
      intro e he
      simpa using (h e he).2
    rw [h1, h2]
  · intro v hv
    unfold memoryRecall at hv
    rcases h1 : List.find? (fun e => e.id = q) db.entities with _ | e
    · rw [h1] at hv
      rcases h2 : List.find? (fun e => e.name = q) db.entities with _ | e
      · rw [h2] at hv
        exact absurd hv (by simp)
      · rw [h2] at hv
        refine ⟨e, List.mem_of_find?_eq_some h2, Or.inr ?_, ?_⟩
        · simpa using List.find?_some h2
        · simpa using hv.symm
    · rw [h1] at hv
      refine ⟨e, List.mem_of_find?_eq_some h1, Or.inl ?_, ?_⟩
      · simpa using List.find?_some h1
      · simpa using hv.symm
  · intro e he hid
    unfold memoryRecall
    rw [find?_entity_id_of_nodup db.entities hwf.2.2 e he q hid]

/-- The serialized empty metadata object used by the concrete test rows. -/
def emptyMeta : String := jsonStringify []

/-- Concrete entity: id minted first, name `alpha`. -/
def entA : EntityRow :=
  { id := mintUuid 0, name := "alpha", type := "t", content := "c0",
    metadata := emptyMeta, created_at := 0, updated_at := 0 }

/-- Concrete entity whose NAME equals `entA`'s id. -/
def entB : EntityRow :=
  { id := mintUuid 1, name := mintUuid 0, type := "t", content := "c1",
    metadata := emptyMeta, created_at := 0, updated_at := 0 }

/-- Concrete store holding `entA` and `entB`. -/
def dbAB : Db := ⟨[entA, entB], [], 2⟩

/-- Witness for C3: an id hit wins over a name hit on the same argument, and
an unmatched argument reports not-found. -/
theorem claim_C3_recall_lookup_witness :
    memoryRecall dbAB (mintUuid 0) = RecallResult.found (viewOf entA) ∧
    memoryRecall dbAB "zzz" = RecallResult.notFound :=
  ⟨(claim_C3_recall_lookup dbAB (mintUuid 0) (by decide)).2.2 entA (by decide)
     (by decide),
   (claim_C3_recall_lookup dbAB "zzz" (by decide)).1 (by decide)⟩

/-- C5: `update(id, content, metadata?)` on an id naming no entity returns
`updated = false` without failing, creates no entity, and leaves the whole
store (entities and relations) unchanged. -/
theorem claim_C5_update_nonexistent (db : Db) (now : Nat) (id content : String)
    (metadata : Option Metadata) (h : ∀ e ∈ db.entities, e.id ≠ id) :
    memoryUpdate db now id content metadata = ({ id := id, updated := false }, db) := by
  unfold memoryUpdate
  have hany : (db.entities.any (fun e => e.id = id)) = false := by
    rw [List.any_eq_false]
    intro e he
    simpa using h e he
  have hmap : (db.entities.map (fun e =>
      if e.id = id then
        { e with
          content := content,
          updated_at := now,
          metadata := match metadata with
            | some md => jsonStringify md
            | none => e.metadata }
      else e)) = db.entities := by
    have hcongr : ∀ e ∈ db.entities,
        (if e.id = id then
          { e with
            content := content,
            updated_at := now,
            metadata := match metadata with
              | some md => jsonStringify md
              | none => e.metadata }
        else e) = e := by
      intro e he
      rw [if_neg (h e he)]
    rw [List.map_congr_left hcongr, List.map_id']
  rw [hany, hmap]

/-- Witness for C5 at a concrete store and unknown id. -/
theorem claim_C5_update_nonexistent_witness :
    memoryUpdate dbAB 7 "nope" "x" none = ({ id := "nope", updated := false }, dbAB) :=
  claim_C5_update_nonexistent dbAB 7 "nope" "x" none (by decide)

/-- C2: the store never enforces referential integrity: (i) `relate` creates
a relation even when neither endpoint id names an entity; (ii) `delete`
removes only the entity and leaves the relations table untouched; (iii) a
relation of a deleted entity is still returned by `getRelations`, with the
deleted endpoint's denormalized name/type NULL. -/
theorem claim_C2_relaxed_graph (db : Db) (now : Nat) :
    (∀ fromId toId relationType metadata,
      (∀ e ∈ db.entities, e.id ≠ fromId) →
      (∀ e ∈ db.entities, e.id ≠ toId) →
      (memoryRelate db now fromId toId relationType metadata).1.created = true ∧
      (∃ r ∈ (memoryRelate db now fromId toId relationType metadata).2.relations,
        r.from_entity = fromId ∧ r.to_entity = toId ∧
        r.relation_type = relationType)) ∧
    (∀ id, (memoryDelete db id).2.relations = db.relations ∧
      (memoryDelete db id).2.entities =
        db.entities.filter (fun e => ¬ e.id = id)) ∧
    (∀ e ∈ db.entities, ∀ r ∈ db.relations,
      r.from_entity = e.id ∨ r.to_entity = e.id →
      (annotateRelation (memoryDelete db e.id).2 r ∈
        (memoryGetRelations (memoryDelete db e.id).2 e.id).relations ∧
       (r.from_entity = e.id →
         (annotateRelation (memoryDelete db e.id).2 r).from_name = none ∧
         (annotateRelation (memoryDelete db e.id).2 r).from_type = none) ∧
       (r.to_entity = e.id →
         (annotateRelation (memoryDelete db e.id).2 r).to_name = none ∧
         (annotateRelation (memoryDelete db e.id).2 r).to_type = none))) := by
  refine ⟨?_, ?_, ?_⟩
  · intro fromId toId relationType metadata hf ht
    refine ⟨rfl, ?_⟩
    refine ⟨⟨mintUuid db.nextId, fromId, toId, relationType,
      jsonStringify metadata, now⟩, ?_, rfl, rfl, rfl⟩
    unfold memoryRelate
    simp
  · intro id
    exact ⟨rfl, rfl⟩
  · intro e he r hr hend
    have hfind : ∀ q, q = e.id →
        List.find? (fun x => x.id = q) (memoryDelete db e.id).2.entities = none := by
      intro q hq
      rw [List.find?_eq_none]
      intro x hx
      unfold memoryDelete at hx
      simp only [List.mem_filter, decide_not, Bool.not_eq_eq_eq_not, Bool.not_true,
        decide_eq_false_iff_not] at hx
      simp [hq, hx.2]
    refine ⟨?_, ?_, ?_⟩
    · unfold memoryGetRelations
      simp only
      rw [List.mem_map]
      refine ⟨r, ?_, rfl⟩
      rw [List.mem_filter]
      refine ⟨hr, ?_⟩
      rcases hend with h | h <;> simp [h]
    · intro hfe
      unfold annotateRelation
      simp only
      rw [hfind r.from_entity hfe]
      exact ⟨rfl, rfl⟩
    · intro hte
      unfold annotateRelation
      simp only
      rw [hfind r.to_entity hte]
      exact ⟨rfl, rfl⟩

/-- Concrete relation between `entA` and `entB`. -/
def relAB : RelationRow :=
  { id := mintUuid 2, from_entity := mintUuid 0, to_entity := mintUuid 1,
    relation_type := "depends_on", metadata := emptyMeta, created_at := 0 }

/-- Concrete store holding `entA`, `entB` and the relation between them. -/
def dbRel : Db := ⟨[entA, entB], [relAB], 3⟩

/-- Witness for C2: relate two dangling ids, and delete `entA` while its
relation stays retrievable with NULL `from` denormalization. -/
theorem claim_C2_relaxed_graph_witness :
    ((memoryRelate dbRel 9 "ghost1" "ghost2" "refers_to" []).1.created = true ∧
     (∃ r ∈ (memoryRelate dbRel 9 "ghost1" "ghost2" "refers_to" []).2.relations,
       r.from_entity = "ghost1" ∧ r.to_entity = "ghost2" ∧
       r.relation_type = "refers_to")) ∧
    (annotateRelation (memoryDelete dbRel entA.id).2 relAB ∈
      (memoryGetRelations (memoryDelete dbRel entA.id).2 entA.id).relations ∧
     (relAB.from_entity = entA.id →
       (annotateRelation (memoryDelete dbRel entA.id).2 relAB).from_name = none ∧
       (annotateRelation (memoryDelete dbRel entA.id).2 relAB).from_type = none) ∧
     (relAB.to_entity = entA.id →
       (annotateRelation (memoryDelete dbRel entA.id).2 relAB).to_name = none ∧
       (annotateRelation (memoryDelete dbRel entA.id).2 relAB).to_type = none)) :=
  ⟨(claim_C2_relaxed_graph dbRel 9).1 "ghost1" "ghost2" "refers_to" []
     (by decide) (by decide),
   (claim_C2_relaxed_graph dbRel 9).2.2 entA (by decide) relAB (by decide)
     (Or.inl (by decide))⟩

/-- The claim's "case-insensitive substring match" reading (ASCII case
folding on both sides, contiguous substring). -/
def ciSubstring (q s : String) : Bool :=
  containsSub (q.data.map asciiLower) (s.data.map asciiLower)

/-- Store with one entity whose name and content are the plain text `ab`. -/
def dbWild : Db := ⟨[⟨mintUuid 0, "ab", "t", "ab", emptyMeta, 0, 0⟩], [], 1⟩

/-- C4 counterexample: searching for `_` — a LIKE single-character wildcard
that reaches the pattern unescaped — returns the `ab` entity although `_`
is not a (case-insensitive) substring of its name `ab` or content `ab`, so
"each result is a case-insensitive substring match of the query" fails. -/
theorem claim_C4_search_counterexample :
    (memorySearch dbWild "_" none).entities = [⟨mintUuid 0, "ab", "t", "ab", 0⟩] ∧
    ciSubstring "_" "ab" = false := by
  constructor
  · decide
  · decide

/-- C4 (amended): for every query and optional type filter, search returns
at most 50 results, each drawn from a stored entity whose name or content
matches the LIKE pattern `%query%` case-insensitively (for queries without
the LIKE wildcards `%`/`_` this is a case-insensitive substring match) and
whose type equals a supplied (nonempty) type filter, ordered by `updated_at`
descending, with content previewed to 200 characters plus an ellipsis when
longer. -/
theorem claim_C4_search_amended (db : Db) (query : String) (type? : Option String) :
    (memorySearch db query type?).entities.length ≤ 50 ∧
    (∀ row ∈ (memorySearch db query type?).entities,
      ∃ e ∈ db.entities,
        (likeMatch (searchPattern query) e.name.data = true ∨
         likeMatch (searchPattern query) e.content.data = true) ∧
        (typeFilterActive type? = true → e.type = type?.getD "") ∧
        row = previewOf e ∧
        row.content = (⟨e.content.data.take 200⟩ : String) ++
          (if 200 < e.content.data.length then "..." else "")) ∧
    (memorySearch db query type?).entities.Pairwise
      (fun a b => b.updated_at ≤ a.updated_at) ∧
    (memorySearch db query type?).count =
      (memorySearch db query type?).entities.length := by
  refine ⟨?_, ?_, ?_, ?_⟩
  · unfold memorySearch
    simp only [List.length_map, List.length_take]
    exact Nat.min_le_left _ _
  · intro row hrow
    unfold memorySearch at hrow
    simp only [List.mem_map] at hrow
    obtain ⟨e, hetake, hrow⟩ := hrow
    have hesort := List.mem_of_mem_take hetake
    rw [(List.perm_insertionSort updatedDesc _).mem_iff] at hesort
    rw [List.mem_filter] at hesort
    obtain ⟨hemem, hecond⟩ := hesort
    simp only [Bool.and_eq_true] at hecond
    refine ⟨e, hemem, ?_, ?_, hrow.symm, ?_⟩
    · have := hecond.1
      unfold searchMatches at this
      simpa [Bool.or_eq_true] using this
    · intro hactive
      have := hecond.2
      rw [if_pos hactive] at this
      simpa using this
    · rw [← hrow]
      rfl
  · unfold memorySearch
    simp only
    have hsorted : List.Sorted updatedDesc
        ((db.entities.filter (fun e =>
          searchMatches query e &&
            (if typeFilterActive type? then e.type = type?.getD "" else true))).insertionSort
          updatedDesc) :=
      List.sorted_insertionSort updatedDesc _
    have htake := hsorted.sublist (List.take_sublist 50 _)
    rw [List.pairwise_map]
    exact htake
  · unfold memorySearch
    simp

/-- Witness for C4 (amended) at a concrete store and query. -/
theorem claim_C4_search_amended_witness :
    (memorySearch dbWild "_" none).entities.length ≤ 50 ∧
    ∃ e ∈ dbWild.entities,
      (likeMatch (searchPattern "_") e.name.data = true ∨
       likeMatch (searchPattern "_") e.content.data = true) ∧
      (typeFilterActive none = true → e.type = (none : Option String).getD "") ∧
      (⟨mintUuid 0, "ab", "t", "ab", 0⟩ : SearchRow) = previewOf e ∧
      (⟨mintUuid 0, "ab", "t", "ab", 0⟩ : SearchRow).content =
        (⟨e.content.data.take 200⟩ : String) ++
          (if 200 < e.content.data.length then "..." else "") :=
  ⟨(claim_C4_search_amended dbWild "_" none).1,
   (claim_C4_search_amended dbWild "_" none).2.1 ⟨mintUuid 0, "ab", "t", "ab", 0⟩
     (by decide)⟩

lemma knownTool_false_of_not_mem (name : String)
    (h : name ∉ registeredToolNames) : knownTool name = false := by
  unfold knownTool
  split
  all_goals first
    | rfl
    | (exfalso; apply h; unfold registeredToolNames; simp)

/-- C6: dispatching a tool name outside the registered set yields a normal
tool-result payload — `handleCallTool` is total, so the transport still
answers with a success envelope — whose `isError` flag is set and whose text
`Error: Unknown tool: <name>` mentions the unknown tool name, for every
handler behaviour `run` of the registered tools. -/
theorem claim_C6_unknown_tool (name : String)
    (run : String → Except String String) (h : name ∉ registeredToolNames) :
    handleCallTool name run =
      { text := "Error: Unknown tool: " ++ name, isError := true } ∧
    (handleCallTool name run).text = "Error: Unknown tool: " ++ name := by
  have hk := knownTool_false_of_not_mem name h
  unfold handleCallTool dispatchCallTool
  rw [hk]
  simp only [Bool.false_eq_true, if_false]
  constructor
  · have : "Error: " ++ ("Unknown tool: " ++ name) =
        "Error: Unknown tool: " ++ name := by
      rw [← String.append_assoc]
      rfl
    rw [this]
  · have : "Error: " ++ ("Unknown tool: " ++ name) =
        "Error: Unknown tool: " ++ name := by
      rw [← String.append_assoc]
      rfl
    rw [this]

/-- Witness for C6 at a concrete unregistered tool name. -/
theorem claim_C6_unknown_tool_witness :
    handleCallTool "bogus_tool" (fun _ => Except.ok "") =
      { text := "Error: Unknown tool: bogus_tool", isError := true } := by
  have := (claim_C6_unknown_tool "bogus_tool" (fun _ => Except.ok "")
    (by decide)).1
  simpa using this

/-! ## Session lemmas -/

lemma postMcp_none (st : ServerState) : postMcp st none = createSession st := rfl

lemma postMcp_some (st : ServerState) (sid : String) :
    postMcp st (some sid) =
      if sid ≠ "" then
        match mapGet st.sessions sid with
        | some entry => (⟨sid, entry⟩, st)
        | none => createSession st
      else createSession st := rfl

lemma deleteMcp_none (st : ServerState) : deleteMcp st none = (⟨404⟩, st) := rfl

lemma deleteMcp_some (st : ServerState) (sid : String) :
    deleteMcp st (some sid) =
      if sid ≠ "" ∧ (mapGet st.sessions sid).isSome then
        (⟨200⟩, { st with sessions := mapDelete st.sessions sid })
      else (⟨404⟩, st) := rfl

lemma mem_mapSet {α : Type} (m : List (String × α)) (k : String) (v : α)
    (q : String × α) (hq : q ∈ mapSet m k v) : q ∈ m ∨ q = (k, v) := by
  unfold mapSet at hq
  split at hq
  · rw [List.mem_map] at hq
    obtain ⟨p, hp, hpq⟩ := hq
    by_cases hk : p.1 = k
    · right
      rw [← hpq, if_pos hk]
    · left
      rw [← hpq, if_neg hk]
      exact hp
  · rcases List.mem_append.mp hq with h | h
    · left
      exact h
    · right
      simpa using h

lemma SWF_fresh (st : ServerState) (h : SWF st) :
    mapGet st.sessions (mintUuid st.nextUuid) = none := by
  rcases ho : mapGet st.sessions (mintUuid st.nextUuid) with _ | e
  · rfl
  · exfalso
    obtain ⟨k, hk, hkey⟩ := h.1 _ (mapGet_mem _ _ _ ho)
    exact absurd (mintUuid_injective hkey.symm) (Nat.ne_of_lt hk)

lemma SWF_createSession (st : ServerState) (h : SWF st) :
    SWF (createSession st).2 := by
  constructor
  · intro p hp
    rcases mem_mapSet _ _ _ _ hp with hold | hnew
    · obtain ⟨k, hk, hkey⟩ := h.1 p hold
      exact ⟨k, Nat.lt_succ_of_lt hk, hkey⟩
    · exact ⟨st.nextUuid, Nat.lt_succ_self _, by rw [hnew]⟩
  · exact mapSet_keys_nodup _ _ _ h.2

lemma SWF_postMcp (st : ServerState) (h : SWF st) (hdr : Option String) :
    SWF (postMcp st hdr).2 := by
  match hdr with
  | none =>
    rw [postMcp_none]
    exact SWF_createSession st h
  | some sid =>
    rw [postMcp_some]
    by_cases hs : sid ≠ ""
    · rw [if_pos hs]
      rcases hg : mapGet st.sessions sid with _ | e
      · exact SWF_createSession st h
      · exact h
    · rw [if_neg hs]
      exact SWF_createSession st h

lemma SWF_deleteMcp (st : ServerState) (h : SWF st) (hdr : Option String) :
    SWF (deleteMcp st hdr).2 := by
  match hdr with
  | none =>
    rw [deleteMcp_none]
    exact h
  | some sid =>
    rw [deleteMcp_some]
    by_cases hc : sid ≠ "" ∧ (mapGet st.sessions sid).isSome
    · rw [if_pos hc]
      constructor
      · intro p hp
        have hpm : p ∈ st.sessions := (List.mem_filter.mp hp).1
        exact h.1 p hpm
      · have hsub : List.Sublist ((mapDelete st.sessions sid).map (fun q => q.1))
            (st.sessions.map (fun q => q.1)) :=
          (List.filter_sublist _).map _
        exact h.2.sublist hsub
    · rw [if_neg hc]
      exact h

/-- Binding-tracking invariant for one session id: the state is well-formed,
the id was minted below the current counter, and the id is either still
bound to the original pair or gone. -/
def TrackInv (sid : String) (e : SessionEntry) (st : ServerState) : Prop :=
  SWF st ∧ (∃ k, k < st.nextUuid ∧ sid = mintUuid k) ∧
  (mapGet st.sessions sid = some e ∨ mapGet st.sessions sid = none)

lemma TrackInv_createSession (sid : String) (e : SessionEntry)
    (st : ServerState) (h : TrackInv sid e st) :
    TrackInv sid e (createSession st).2 := by
  obtain ⟨hwf, ⟨k, hk, hkey⟩, hb⟩ := h
  have hne : mintUuid st.nextUuid ≠ sid := by
    rw [hkey]
    intro hc
    exact absurd (mintUuid_injective hc) (Nat.ne_of_gt hk)
  refine ⟨SWF_createSession st hwf, ⟨k, Nat.lt_succ_of_lt hk, hkey⟩, ?_⟩
  have heq : mapGet (createSession st).2.sessions sid = mapGet st.sessions sid := by
    unfold createSession
    exact mapGet_set_ne _ _ _ _ hne
  rw [heq]
  exact hb

lemma TrackInv_applyRequest (sid : String) (e : SessionEntry)
    (st : ServerState) (req : McpRequest) (h : TrackInv sid e st) :
    TrackInv sid e (applyRequest st req) := by
  obtain ⟨hwf, ⟨k, hk, hkey⟩, hb⟩ := h
  match req with
  | .post hdr =>
    show TrackInv sid e (postMcp st hdr).2
    match hdr with
    | none =>
      rw [postMcp_none]
      exact TrackInv_createSession sid e st ⟨hwf, ⟨k, hk, hkey⟩, hb⟩
    | some sid' =>
      rw [postMcp_some]
      by_cases hs : sid' ≠ ""
      · rw [if_pos hs]
        rcases hg : mapGet st.sessions sid' with _ | e'
        · exact TrackInv_createSession sid e st ⟨hwf, ⟨k, hk, hkey⟩, hb⟩
        · exact ⟨hwf, ⟨k, hk, hkey⟩, hb⟩
      · rw [if_neg hs]
        exact TrackInv_createSession sid e st ⟨hwf, ⟨k, hk, hkey⟩, hb⟩
  | .del hdr =>
    show TrackInv sid e (deleteMcp st hdr).2
    match hdr with
    | none =>
      rw [deleteMcp_none]
      exact ⟨hwf, ⟨k, hk, hkey⟩, hb⟩
    | some sid' =>
      rw [deleteMcp_some]
      by_cases hc : sid' ≠ "" ∧ (mapGet st.sessions sid').isSome
      · rw [if_pos hc]
        refine ⟨?_, ⟨k, hk, hkey⟩, ?_⟩
        · have := SWF_deleteMcp st hwf (some sid')
          rw [deleteMcp_some, if_pos hc] at this
          exact this
        · by_cases hss : sid' = sid
          · right
            simp only
            rw [hss, mapGet_delete_self]
          · simp only
            rw [mapGet_delete_ne _ _ _ hss]
            exact hb
      · rw [if_neg hc]
        exact ⟨hwf, ⟨k, hk, hkey⟩, hb⟩

lemma TrackInv_runRequests (sid : String) (e : SessionEntry)
    (reqs : List McpRequest) (st : ServerState) (h : TrackInv sid e st) :
    TrackInv sid e (runRequests reqs st) := by
  induction reqs generalizing st with
  | nil => exact h
  | cons r rest ih =>
    exact ih (applyRequest st r) (TrackInv_applyRequest sid e st r h)

/-- C7: a `POST /mcp` carrying a live session id is handled by exactly the
stored `(server, transport)` pair, with no state change; and across any
further request sequence the id either still resolves to that same pair or
is gone — it never resolves to a different engine while the session lives. -/
theorem claim_C7_session_affinity (st : ServerState) (hwf : SWF st)
    (sid : String) (entry : SessionEntry)
    (h : mapGet st.sessions sid = some entry) :
    postMcp st (some sid) = (⟨sid, entry⟩, st) ∧
    ∀ (reqs : List McpRequest) (entry' : SessionEntry),
      mapGet (runRequests reqs st).sessions sid = some entry' → entry' = entry := by
  have hsid : ∃ k, k < st.nextUuid ∧ sid = mintUuid k := by
    obtain ⟨k, hk, hkey⟩ := hwf.1 _ (mapGet_mem _ _ _ h)
    exact ⟨k, hk, hkey⟩
  have hne : sid ≠ "" := by
    obtain ⟨k, _, rfl⟩ := hsid
    exact mintUuid_ne_empty k
  constructor
  · rw [postMcp_some, if_pos hne, h]
  · intro reqs entry' hfin
    have htrack := TrackInv_runRequests sid entry reqs st ⟨hwf, hsid, Or.inl h⟩
    rcases htrack.2.2 with hsome | hnone
    · rw [hfin] at hsome
      exact (Option.some.inj hsome)
    · rw [hfin] at hnone
      cases hnone

/-- Server state with one live session, as minted by a first `POST /mcp`. -/
def stOne : ServerState := ⟨[(mintUuid 0, ⟨0, 0⟩)], 1, 1⟩

/-- Witness for C7: the live session of `stOne` keeps resolving to its pair
across a concrete request trace. -/
theorem claim_C7_session_affinity_witness :
    postMcp stOne (some (mintUuid 0)) = (⟨mintUuid 0, ⟨0, 0⟩⟩, stOne) ∧
    (⟨0, 0⟩ : SessionEntry) = ⟨0, 0⟩ :=
  ⟨(claim_C7_session_affinity stOne (by decide) (mintUuid 0) ⟨0, 0⟩ (by decide)).1,
   (claim_C7_session_affinity stOne (by decide) (mintUuid 0) ⟨0, 0⟩ (by decide)).2
     [McpRequest.post none, McpRequest.del (some "zzz")] ⟨0, 0⟩ (by decide)⟩

/-- C8: `DELETE /mcp` on a live session id removes it and answers 200;
with a missing header or an unknown id it answers 404 and changes nothing;
and after a successful teardown, a `POST /mcp` with the torn-down id is
treated as unknown: it mints a fresh id — different from the torn-down one
and never previously live — binds it to a fresh pair, and leaves the old id
unresolvable. -/
theorem claim_C8_delete_session (st : ServerState) (hwf : SWF st) :
    (∀ sid entry, mapGet st.sessions sid = some entry →
      deleteMcp st (some sid) =
        (⟨200⟩, { st with sessions := mapDelete st.sessions sid }) ∧
      mapGet (deleteMcp st (some sid)).2.sessions sid = none) ∧
    (deleteMcp st none = (⟨404⟩, st)) ∧
    (∀ sid, mapGet st.sessions sid = none → deleteMcp st (some sid) = (⟨404⟩, st)) ∧
    (∀ sid entry, mapGet st.sessions sid = some entry →
      (postMcp (deleteMcp st (some sid)).2 (some sid)).1.sid ≠ sid ∧
      mapGet st.sessions (postMcp (deleteMcp st (some sid)).2 (some sid)).1.sid = none ∧
      mapGet (postMcp (deleteMcp st (some sid)).2 (some sid)).2.sessions
          (postMcp (deleteMcp st (some sid)).2 (some sid)).1.sid =
        some (postMcp (deleteMcp st (some sid)).2 (some sid)).1.entry ∧
      mapGet (postMcp (deleteMcp st (some sid)).2 (some sid)).2.sessions sid = none) := by
  have hlive : ∀ sid entry, mapGet st.sessions sid = some entry →
      (sid ≠ "" ∧ (∃ k, k < st.nextUuid ∧ sid = mintUuid k)) := by
    intro sid entry h
    obtain ⟨k, hk, hkey0⟩ := hwf.1 _ (mapGet_mem _ _ _ h)
    have hkey : sid = mintUuid k := hkey0
    refine ⟨?_, k, hk, hkey⟩
    rw [hkey]
    exact mintUuid_ne_empty k
  refine ⟨?_, ?_, ?_, ?_⟩
  · intro sid entry h
    obtain ⟨hne, _⟩ := hlive sid entry h
    have hcond : sid ≠ "" ∧ (mapGet st.sessions sid).isSome := by
      exact ⟨hne, by rw [h]; rfl⟩
    constructor
    · rw [deleteMcp_some, if_pos hcond]
    · rw [deleteMcp_some, if_pos hcond]
      exact mapGet_delete_self _ _
  · exact deleteMcp_none st
  · intro sid h
    rw [deleteMcp_some]
    rw [if_neg]
    intro hc
    rw [h] at hc
    exact absurd hc.2 (by simp)
  · intro sid entry h
    obtain ⟨hne, k, hk, hkey⟩ := hlive sid entry h
    have hcond : sid ≠ "" ∧ (mapGet st.sessions sid).isSome :=
      ⟨hne, by rw [h]; rfl⟩
    have hst' : (deleteMcp st (some sid)).2 =
        { st with sessions := mapDelete st.sessions sid } := by
      rw [deleteMcp_some, if_pos hcond]
    have hg' : mapGet (deleteMcp st (some sid)).2.sessions sid = none := by
      rw [hst']
      exact mapGet_delete_self _ _
    have hpost : postMcp (deleteMcp st (some sid)).2 (some sid) =
        createSession (deleteMcp st (some sid)).2 := by
      rw [postMcp_some, if_pos hne, hg']
    have hnuuid : (deleteMcp st (some sid)).2.nextUuid = st.nextUuid := by
      rw [hst']
    have hfreshne : mintUuid st.nextUuid ≠ sid := by
      rw [hkey]
      intro hc
      exact absurd (mintUuid_injective hc) (Nat.ne_of_gt hk)
    have hsid' : (postMcp (deleteMcp st (some sid)).2 (some sid)).1.sid =
        mintUuid st.nextUuid := by
      rw [hpost]
      unfold createSession
      simp only
      rw [hnuuid]
    refine ⟨?_, ?_, ?_, ?_⟩
    · rw [hsid']
      exact hfreshne
    · rw [hsid']
      exact SWF_fresh st hwf
    · rw [hpost]
      unfold createSession
      simp only
      exact mapGet_set_self _ _ _
    · rw [hpost]
      unfold createSession
      simp only
      rw [hnuuid, mapGet_set_ne _ _ _ _ hfreshne, hst']
      exact mapGet_delete_self _ _

/-- Witness for C8 at `stOne`: tear down the live session, observe 404 on a
missing header and on the unknown id, and observe that a re-POST with the
torn-down id mints the distinct fresh id `uu`. -/
theorem claim_C8_delete_session_witness :
    (deleteMcp stOne (some (mintUuid 0)) =
      (⟨200⟩, { stOne with sessions := mapDelete stOne.sessions (mintUuid 0) }) ∧
     mapGet (deleteMcp stOne (some (mintUuid 0))).2.sessions (mintUuid 0) = none) ∧
    deleteMcp stOne none = (⟨404⟩, stOne) ∧
    deleteMcp stOne (some "zzz") = (⟨404⟩, stOne) ∧
    (postMcp (deleteMcp stOne (some (mintUuid 0))).2 (some (mintUuid 0))).1.sid ≠
      mintUuid 0 :=
  ⟨(claim_C8_delete_session stOne (by decide)).1 (mintUuid 0) ⟨0, 0⟩ (by decide),
   (claim_C8_delete_session stOne (by decide)).2.1,
   (claim_C8_delete_session stOne (by decide)).2.2.1 "zzz" (by decide),
   ((claim_C8_delete_session stOne (by decide)).2.2.2 (mintUuid 0) ⟨0, 0⟩
     (by decide)).1⟩

/-! ## Interleaving invariant preservation -/

lemma ConcInv_stepTask (sys : ConcState) (i : Nat) (h : ConcInv sys) :
    ConcInv (stepTask sys i) := by
  obtain ⟨h1, h2, h3, h4⟩ := h
  rcases hti : sys.tasks[i]? with _ | p
  · have hstep : stepTask sys i = sys := by
      unfold stepTask
      rw [hti]
    rw [hstep]
    exact ⟨h1, h2, h3, h4⟩
  · cases p with
    | pending =>
      have hstep : stepTask sys i =
          { sys with
            tasks := sys.tasks.set i
              (.minted (mintUuid sys.nextUuid) ⟨sys.nextEngine, sys.nextEngine⟩),
            nextUuid := sys.nextUuid + 1,
            nextEngine := sys.nextEngine + 1 } := by
        unfold stepTask
        rw [hti]
      rw [hstep]
      refine ⟨?_, ?_, ?_, h4⟩
      · intro j p sid hj hsid
        simp only [List.getElem?_set] at hj
        by_cases hij : i = j
        · rw [if_pos hij] at hj
          by_cases hlen : i < sys.tasks.length
          · rw [if_pos hlen] at hj
            cases hj
            simp only [taskSid, Option.some.injEq] at hsid
            exact ⟨sys.nextUuid, Nat.lt_succ_self _, hsid.symm⟩
          · rw [if_neg hlen] at hj
            cases hj
        · rw [if_neg hij] at hj
          obtain ⟨k, hk, hkey⟩ := h1 j p sid hj hsid
          exact ⟨k, Nat.lt_succ_of_lt hk, hkey⟩
      · intro j1 j2 p1 p2 s1 s2 hne hj1 hj2 hs1 hs2
        simp only [List.getElem?_set] at hj1 hj2
        by_cases hi1 : i = j1
        · rw [if_pos hi1] at hj1
          by_cases hlen : i < sys.tasks.length
          · rw [if_pos hlen] at hj1
            cases hj1
            simp only [taskSid, Option.some.injEq] at hs1
            have hij2 : ¬ i = j2 := fun hc => hne (hi1 ▸ hc)
            rw [if_neg hij2] at hj2
            obtain ⟨k, hk, hkey⟩ := h1 j2 p2 s2 hj2 hs2
            rw [← hs1, hkey]
            intro hc
            exact absurd (mintUuid_injective hc) (Nat.ne_of_gt hk)
          · rw [if_neg hlen] at hj1
            cases hj1
        · rw [if_neg hi1] at hj1
          by_cases hi2 : i = j2
          · rw [if_pos hi2] at hj2
            by_cases hlen : i < sys.tasks.length
            · rw [if_pos hlen] at hj2
              cases hj2
              simp only [taskSid, Option.some.injEq] at hs2
              obtain ⟨k, hk, hkey⟩ := h1 j1 p1 s1 hj1 hs1
              rw [← hs2, hkey]
              intro hc
              exact absurd (mintUuid_injective hc) (Nat.ne_of_lt hk)
            · rw [if_neg hlen] at hj2
              cases hj2
          · rw [if_neg hi2] at hj2
            exact h2 j1 j2 p1 p2 s1 s2 hne hj1 hj2 hs1 hs2
      · intro q hq
        obtain ⟨k, hk, hkey⟩ := h3 q hq
        exact ⟨k, Nat.lt_succ_of_lt hk, hkey⟩
    | minted sid entry =>
      have hstep : stepTask sys i =
          { sys with
            tasks := sys.tasks.set i (.registered sid entry),
            sessions := mapSet sys.sessions sid entry } := by
        unfold stepTask
        rw [hti]
      rw [hstep]
      have hsidk : ∃ k, k < sys.nextUuid ∧ sid = mintUuid k :=
        h1 i (.minted sid entry) sid hti rfl
      refine ⟨?_, ?_, ?_, ?_⟩
      · intro j p s hj hs
        simp only [List.getElem?_set] at hj
        by_cases hij : i = j
        · rw [if_pos hij] at hj
          by_cases hlen : i < sys.tasks.length
          · rw [if_pos hlen] at hj
            cases hj
            simp only [taskSid, Option.some.injEq] at hs
            rw [← hs]
            exact hsidk
          · rw [if_neg hlen] at hj
            cases hj
        · rw [if_neg hij] at hj
          exact h1 j p s hj hs
      · intro j1 j2 p1 p2 s1 s2 hne hj1 hj2 hs1 hs2
        simp only [List.getElem?_set] at hj1 hj2
        by_cases hi1 : i = j1
        · rw [if_pos hi1] at hj1
          by_cases hlen : i < sys.tasks.length
          · rw [if_pos hlen] at hj1
            cases hj1
            simp only [taskSid, Option.some.injEq] at hs1
            have hij2 : ¬ i = j2 := fun hc => hne (hi1 ▸ hc)
            rw [if_neg hij2] at hj2
            exact h2 j1 j2 (.minted sid entry) p2 s1 s2 hne (hi1 ▸ hti) hj2
              (by simp [taskSid, hs1]) hs2
          · rw [if_neg hlen] at hj1
            cases hj1
        · rw [if_neg hi1] at hj1
          by_cases hi2 : i = j2
          · rw [if_pos hi2] at hj2
            by_cases hlen : i < sys.tasks.length
            · rw [if_pos hlen] at hj2
              cases hj2
              simp only [taskSid, Option.some.injEq] at hs2
              exact h2 j1 j2 p1 (.minted sid entry) s1 s2 hne hj1 (hi2 ▸ hti)
                hs1 (by simp [taskSid, hs2])
            · rw [if_neg hlen] at hj2
              cases hj2
          · rw [if_neg hi2] at hj2
            exact h2 j1 j2 p1 p2 s1 s2 hne hj1 hj2 hs1 hs2
      · intro q hq
        rcases mem_mapSet _ _ _ _ hq with hold | hnew
        · exact h3 q hold
        · obtain ⟨k, hk, hkey⟩ := hsidk
          exact ⟨k, hk, by rw [hnew]; exact hkey⟩
      · exact mapSet_keys_nodup _ _ _ h4
    | registered sid entry =>
      have hstep : stepTask sys i = sys := by
        unfold stepTask
        rw [hti]
      rw [hstep]
      exact ⟨h1, h2, h3, h4⟩

lemma ConcInv_runSchedule (sch : List Nat) (sys : ConcState) (h : ConcInv sys) :
    ConcInv (runSchedule sch sys) := by
  induction sch generalizing sys with
  | nil => exact h
  | cons i rest ih => exact ih (stepTask sys i) (ConcInv_stepTask sys i h)

lemma ConcInv_initConc (n : Nat) (st : ServerState) (h : SWF st) :
    ConcInv (initConc n st) := by
  refine ⟨?_, ?_, h.1, h.2⟩
  · intro j p sid hj hsid
    simp only [initConc, List.getElem?_replicate] at hj
    by_cases hjn : j < n
    · rw [if_pos hjn] at hj
      cases hj
      cases hsid
    · rw [if_neg hjn] at hj
      cases hj
  · intro j1 j2 p1 p2 s1 s2 hne hj1 hj2 hs1 hs2
    simp only [initConc, List.getElem?_replicate] at hj1
    by_cases hjn : j1 < n
    · rw [if_pos hjn] at hj1
      cases hj1
      cases hs1
    · rw [if_neg hjn] at hj1
      cases hj1

/-- C9: across any number of concurrently interleaved session-creating
`POST /mcp` resolutions (each suspended between minting and registering),
every minted session id is distinct from every other task's, and the final
session map binds each id to exactly one engine pair — no race produces two
live engines for one id. -/
theorem claim_C9_concurrent_creation_unique (n : Nat) (st : ServerState)
    (hwf : SWF st) (sch : List Nat) :
    (∀ (i j : Nat) (pi pj : TaskPhase) (sidi sidj : String), i ≠ j →
      (runSchedule sch (initConc n st)).tasks[i]? = some pi →
      (runSchedule sch (initConc n st)).tasks[j]? = some pj →
      taskSid pi = some sidi → taskSid pj = some sidj → sidi ≠ sidj) ∧
    (∀ (sid : String) (e1 e2 : SessionEntry),
      (sid, e1) ∈ (runSchedule sch (initConc n st)).sessions →
      (sid, e2) ∈ (runSchedule sch (initConc n st)).sessions → e1 = e2) := by
  have hinv := ConcInv_runSchedule sch (initConc n st) (ConcInv_initConc n st hwf)
  refine ⟨hinv.2.1, ?_⟩
  intro sid e1 e2 h1 h2
  exact mem_value_eq_of_keys_nodup _ hinv.2.2.2 sid e1 e2 h1 h2

/-- Witness for C9: two interleaved creations mint the distinct ids `u` and
`uu`, and the id `u` is bound to exactly one pair. -/
theorem claim_C9_concurrent_creation_unique_witness :
    ("u" : String) ≠ "uu" ∧ (⟨0, 0⟩ : SessionEntry) = ⟨0, 0⟩ :=
  ⟨(claim_C9_concurrent_creation_unique 2 ServerState.initial (by decide)
      [0, 1, 0, 1]).1 0 1 (.registered "u" ⟨0, 0⟩) (.registered "uu" ⟨1, 1⟩)
      "u" "uu" (by decide) (by decide) (by decide) rfl rfl,
   (claim_C9_concurrent_creation_unique 2 ServerState.initial (by decide)
      [0, 1, 0, 1]).2 "u" ⟨0, 0⟩ ⟨0, 0⟩ (by decide) (by decide)⟩

lemma append_ne_accessDenied_of_head_E (pre s : String)
    (hpre : pre.data.head? = some 'E') : pre ++ s ≠ accessDeniedMsg := by
  intro h
  have h2 := congrArg (fun t => t.data.head?) h
  simp only [String.data_append, List.head?_append, hpre, Option.or] at h2
  exact absurd h2 (by decide)

/-- C10: every filesystem tool resolves its path argument against the
workspace first; when the resolution does not start with the workspace
string the operation throws `Access denied: Path is outside workspace` and
performs no filesystem effect (the state is returned unchanged), and only
when the resolution starts with that prefix does the operation proceed
(no other code path produces the access-denied error). -/
theorem claim_C10_workspace_guard (w : String) (fs : FsState)
    (fp content oldText newText : String) (maxDepth : Nat) :
    (strStartsWith (pathResolve w fp) w = false →
      writeFile w fp content fs = (.error accessDeniedMsg, fs) ∧
      readFile w fp fs = (.error accessDeniedMsg, fs) ∧
      editFile w fp oldText newText fs = (.error accessDeniedMsg, fs) ∧
      deleteFile w fp fs = (.error accessDeniedMsg, fs) ∧
      createDirectory w fp fs = (.error accessDeniedMsg, fs) ∧
      listDirectory w fp fs = (.error accessDeniedMsg, fs) ∧
      getDirectoryTree w fp maxDepth fs = (.error accessDeniedMsg, fs)) ∧
    (strStartsWith (pathResolve w fp) w = true →
      (writeFile w fp content fs).1 ≠ .error accessDeniedMsg ∧
      (readFile w fp fs).1 ≠ .error accessDeniedMsg ∧
      (editFile w fp oldText newText fs).1 ≠ .error accessDeniedMsg ∧
      (deleteFile w fp fs).1 ≠ .error accessDeniedMsg ∧
      (createDirectory w fp fs).1 ≠ .error accessDeniedMsg ∧
      (listDirectory w fp fs).1 ≠ .error accessDeniedMsg ∧
      (getDirectoryTree w fp maxDepth fs).1 ≠ .error accessDeniedMsg) := by
  constructor
  · intro hdeny
    have hres : resolvePath w fp = .error accessDeniedMsg := by
      unfold resolvePath
      simp [hdeny]
    refine ⟨?_, ?_, ?_, ?_, ?_, ?_, ?_⟩
    · simp [writeFile, hres]
    · simp [readFile, hres]
    · simp [editFile, hres]
    · simp [deleteFile, hres]
    · simp [createDirectory, hres]
    · simp [listDirectory, hres]
    · simp [getDirectoryTree, hres]
  · intro hallow
    have hres : resolvePath w fp = .ok (pathResolve w fp) := by
      unfold resolvePath
      simp [hallow]
    have hE : ("ENOENT: no such file or directory, open " : String).data.head? =
        some 'E' := by decide
    have hE2 : ("ENOENT: no such file or directory, unlink " : String).data.head? =
        some 'E' := by decide
    have hE3 : ("ENOENT: no such file or directory, scandir " : String).data.head? =
        some 'E' := by decide
    refine ⟨?_, ?_, ?_, ?_, ?_, ?_, ?_⟩
    · simp [writeFile, hres]
    · simp only [readFile, hres]
      rcases mapGet fs.files (pathResolve w fp) with _ | c
      · simpa using append_ne_accessDenied_of_head_E _ _ hE
      · simp
    · simp only [editFile, hres]
      rcases mapGet fs.files (pathResolve w fp) with _ | c
      · simpa using append_ne_accessDenied_of_head_E _ _ hE
      · by_cases hct : containsSub oldText.data c.data
        · simp [hct]
        · simp only [Bool.not_eq_true] at hct
          simp [hct]
          decide
    · simp only [deleteFile, hres]
      by_cases hex : (mapGet fs.files (pathResolve w fp)).isSome
      · simp [hex]
      · simp only [Bool.not_eq_true] at hex
        simp [hex]
        exact append_ne_accessDenied_of_head_E _ _ hE2
    · simp [createDirectory, hres]
    · simp only [listDirectory, hres]
      by_cases hex : dirExists w fs (pathResolve w fp)
      · simp [hex]
      · simp only [Bool.not_eq_true] at hex
        simp [hex]
        exact append_ne_accessDenied_of_head_E _ _ hE3
    · simp only [getDirectoryTree, hres]
      by_cases hex : dirExists w fs (pathResolve w fp)
      · simp [hex]
      · simp only [Bool.not_eq_true] at hex
        simp [hex]
        exact append_ne_accessDenied_of_head_E _ _ hE3

/-- Witness for C10: from the default workspace `/tmp/workspace`, the path
`../../etc/passwd` resolves outside and is denied with no effect, while
`notes.txt` resolves inside and is not access-denied. -/
theorem claim_C10_workspace_guard_witness :
    writeFile "/tmp/workspace" "../../etc/passwd" "c" FsState.empty =
      (.error accessDeniedMsg, FsState.empty) ∧
    (writeFile "/tmp/workspace" "notes.txt" "c" FsState.empty).1 ≠
      .error accessDeniedMsg :=
  ⟨((claim_C10_workspace_guard "/tmp/workspace" FsState.empty "../../etc/passwd"
      "c" "a" "b" 3).1 (by decide)).1,
   ((claim_C10_workspace_guard "/tmp/workspace" FsState.empty "notes.txt"
      "c" "a" "b" 3).2 (by decide)).1⟩
